import Mathlib

/-!
Verification of `pynapple/process/tuning_curves.py`.

The Python source is shallowly embedded over exact rationals: every numpy
float is modelled as a `ℚ`, and the places where IEEE-754 special values
(`nan`, `±inf`) are behaviourally relevant (the IRLS convergence check, the
mutual-information logarithm clean-up, the tuning-curve occupancy division)
are modelled with the type `EF` of "extended floats", which carries the
special values and their propagation and comparison rules exactly, while
finite arithmetic stays exact.

`np.exp` is transcendental, hence not representable over `ℚ`; every property
verified here is independent of the exponential's values, so the solver is
parameterised by an arbitrary function `expf : ℚ → ℚ` standing for `np.exp`.

`np.linalg.inv` is embedded as `matInv A = A.det⁻¹ • A.adjugate`, which
agrees with the mathematical inverse on every invertible matrix
(`matInv_eq_inv` below certifies `matInv A = A⁻¹`).
-/

namespace Pynapple

/-! ### IEEE-754 special values

An "extended float": a finite rational, `+inf`, `-inf`, or `nan`.
The operations below follow IEEE-754 / numpy semantics for the special
values; finite-by-finite operations are exact (no rounding is modelled). -/

inductive EF where
  | fin (q : ℚ)
  | pinf
  | ninf
  | nan
deriving DecidableEq

/-- Float division. `0/0 = nan`, `x/0 = ±inf` for `x ≠ 0`, `nan` propagates,
`inf/inf = nan`, `fin/inf = 0`. -/
def divEF : EF → EF → EF
  | .nan, _ => .nan
  | _, .nan => .nan
  | .fin a, .fin b =>
      if b = 0 then (if a = 0 then .nan else if 0 < a then .pinf else .ninf)
      else .fin (a / b)
  | .pinf, .pinf => .nan
  | .pinf, .ninf => .nan
  | .ninf, .pinf => .nan
  | .ninf, .ninf => .nan
  | .pinf, .fin b => if 0 ≤ b then .pinf else .ninf
  | .ninf, .fin b => if 0 ≤ b then .ninf else .pinf
  | .fin _, .pinf => .fin 0
  | .fin _, .ninf => .fin 0

/-- Float addition. `nan` propagates, `inf + (-inf) = nan`. -/
def addEF : EF → EF → EF
  | .nan, _ => .nan
  | _, .nan => .nan
  | .pinf, .ninf => .nan
  | .ninf, .pinf => .nan
  | .pinf, _ => .pinf
  | _, .pinf => .pinf
  | .ninf, _ => .ninf
  | _, .ninf => .ninf
  | .fin a, .fin b => .fin (a + b)

/-- Float multiplication. `nan` propagates, `inf * 0 = nan`. -/
def mulEF : EF → EF → EF
  | .nan, _ => .nan
  | _, .nan => .nan
  | .pinf, .pinf => .pinf
  | .pinf, .ninf => .ninf
  | .ninf, .pinf => .ninf
  | .ninf, .ninf => .pinf
  | .pinf, .fin b => if b = 0 then .nan else if 0 < b then .pinf else .ninf
  | .fin a, .pinf => if a = 0 then .nan else if 0 < a then .pinf else .ninf
  | .ninf, .fin b => if b = 0 then .nan else if 0 < b then .ninf else .pinf
  | .fin a, .ninf => if a = 0 then .nan else if 0 < a then .ninf else .pinf
  | .fin a, .fin b => .fin (a * b)

/-- Float absolute value (`np.abs`): `|nan| = nan`, `|±inf| = +inf`. -/
def absEF : EF → EF
  | .nan => .nan
  | .pinf => .pinf
  | .ninf => .pinf
  | .fin a => .fin |a|

/-- `np.sum` of a sequence of floats: left-to-right accumulation from `0.0`. -/
def sumEF (l : List EF) : EF := l.foldl addEF (.fin 0)

/-- IEEE float `<`: any comparison with `nan` is `false`;
`-inf < x` for `x ≠ -inf, nan`; `x < +inf` for `x ≠ +inf, nan`. -/
def ltEF : EF → EF → Bool
  | .nan, _ => false
  | _, .nan => false
  | .pinf, _ => false
  | _, .pinf => true
  | .ninf, .ninf => false
  | .ninf, _ => true
  | _, .ninf => false
  | .fin a, .fin b => decide (a < b)

/-- `np.isinf`: true exactly on `±inf` (false on `nan`). -/
def isInfEF : EF → Bool
  | .pinf => true
  | .ninf => true
  | _ => false

/-- `np.isnan`: true exactly on `nan`. -/
def isNanEF : EF → Bool
  | .nan => true
  | _ => false

/-! ### Matrix inverse

`np.linalg.inv`, embedded via the adjugate formula over `ℚ`. -/

/-- `np.linalg.inv` (tuning_curves.py lines 520, 528): the matrix inverse,
computed as `det⁻¹ • adjugate`. On an invertible matrix this is the unique
inverse (see `matInv_eq_inv`); numpy raises `LinAlgError` on a singular
input, which is outside every property proved here. -/
def matInv {d : ℕ} (A : Matrix (Fin d) (Fin d) ℚ) : Matrix (Fin d) (Fin d) ℚ :=
  A.det⁻¹ • A.adjugate

/-! ### PoissonIRLS (tuning_curves.py lines 495-533)

```python
    n, d = X.shape
    W = np.ones(n)
    iXtWX = np.linalg.inv(np.dot(X.T * W, X))
    XtWY = np.dot(X.T * W, y)
    B = np.dot(iXtWX, XtWY)
    for _ in range(niter):
        B_ = B
        L = np.exp(X.dot(B))              # Link function
        Z = L.reshape((-1, 1)) * X        # partial derivatives
        delta = np.dot(np.linalg.inv(np.dot(Z.T * W, Z)), np.dot(Z.T * W, y))
        B = B + delta
        tol = np.sum(np.abs((B - B_) / B_))
        if tol < tolerance:
            return B
    return B
```

`X.T * W` broadcasts `W` over the rows of `X.T`, i.e. multiplies column `i`
of `Xᵗ` by `W i`. The convergence scalar `tol` is computed in the
`EF` float model, because `B_` may contain zeros and the resulting
`nan`/`inf` values govern the branch. -/

variable {n d : ℕ}

/-- `X.T * W` (numpy broadcasting): `(XtW X W) j i = X i j * W i`. -/
def XtW (X : Matrix (Fin n) (Fin d) ℚ) (W : Fin n → ℚ) : Matrix (Fin d) (Fin n) ℚ :=
  Matrix.of fun j i => X i j * W i

/-- One weighted least-squares solve, as written in the source:
`np.dot(np.linalg.inv(np.dot(X.T * W, X)), np.dot(X.T * W, y))`. -/
def wlsB (X : Matrix (Fin n) (Fin d) ℚ) (W : Fin n → ℚ) (y : Fin n → ℚ) : Fin d → ℚ :=
  (matInv (XtW X W * X)).mulVec ((XtW X W).mulVec y)

/-- `L = np.exp(X.dot(B))` with `np.exp` abstracted as `expf`. -/
def linkL (expf : ℚ → ℚ) (X : Matrix (Fin n) (Fin d) ℚ) (B : Fin d → ℚ) : Fin n → ℚ :=
  fun i => expf (X.mulVec B i)

/-- `Z = L.reshape((-1, 1)) * X`: row `i` of `X` scaled by `L i`. -/
def rowScale (L : Fin n → ℚ) (X : Matrix (Fin n) (Fin d) ℚ) : Matrix (Fin n) (Fin d) ℚ :=
  Matrix.of fun i j => L i * X i j

/-- One loop body of `PoissonIRLS`: `B + delta` where
`delta = np.dot(np.linalg.inv(np.dot(Z.T * W, Z)), np.dot(Z.T * W, y))`. -/
def irlsUpdate (expf : ℚ → ℚ) (X : Matrix (Fin n) (Fin d) ℚ) (y W : Fin n → ℚ)
    (B : Fin d → ℚ) : Fin d → ℚ :=
  B + wlsB (rowScale (linkL expf X B) X) W y

/-- The convergence scalar `tol = np.sum(np.abs((B - B_) / B_))`, computed in
the float model: entries of `B_` can be zero, producing `nan` (`0/0`) or
`±inf`, which then propagate through `np.abs` and `np.sum`. -/
def tolEF (Bn B : Fin d → ℚ) : EF :=
  sumEF (List.ofFn fun j => absEF (divEF (.fin (Bn j - B j)) (.fin (B j))))

/-- The `for _ in range(niter)` loop of `PoissonIRLS`, with the current
coefficient vector as explicit state. The branch `if tol < tolerance:
return B` uses the IEEE comparison `ltEF`. -/
def irlsLoop (expf : ℚ → ℚ) (X : Matrix (Fin n) (Fin d) ℚ) (y W : Fin n → ℚ)
    (tolerance : ℚ) : ℕ → (Fin d → ℚ) → (Fin d → ℚ)
  | 0, B => B
  | Nat.succ k, B =>
      let Bn := irlsUpdate expf X y W B
      if ltEF (tolEF Bn B) (.fin tolerance) then Bn
      else irlsLoop expf X y W tolerance k Bn

/-- `PoissonIRLS(X, y, niter, tolerance)` (tuning_curves.py lines 495-533),
parameterised by `expf` standing for `np.exp`. -/
def PoissonIRLS (expf : ℚ → ℚ) (X : Matrix (Fin n) (Fin d) ℚ) (y : Fin n → ℚ)
    (niter : ℕ) (tolerance : ℚ) : Fin d → ℚ :=
  irlsLoop expf X y (fun _ => 1) tolerance niter (wlsB X (fun _ => 1) y)

/-! ### Specification-side formulation of the IRLS solver

The spec (§4.2) states the initialisation as `B = (XᵗWX)⁻¹ XᵗWy` with `W`
a vector of uniform weights acting as a diagonal weighting, and the update
as `delta = (ZᵗWZ)⁻¹ ZᵗW y`, `B_new = B + delta` where `Z` is `X` with each
row scaled by the corresponding entry of `L = exp(X·B)`. These definitions
follow the spec's words, with `W` as an explicit diagonal weight matrix. -/

/-- Spec formula `(XᵗWX)⁻¹ XᵗWy` with `W` as a diagonal matrix. -/
def specWlsB (X : Matrix (Fin n) (Fin d) ℚ) (W : Fin n → ℚ) (y : Fin n → ℚ) : Fin d → ℚ :=
  (matInv (X.transpose * Matrix.diagonal W * X)).mulVec ((X.transpose * Matrix.diagonal W).mulVec y)

/-- Spec update step: `L = exp(X·B)`, `Z = L ⊙ X`,
`delta = (ZᵗWZ)⁻¹ ZᵗW y`, `B_new = B + delta`. -/
def specUpdate (expf : ℚ → ℚ) (X : Matrix (Fin n) (Fin d) ℚ) (y W : Fin n → ℚ)
    (B : Fin d → ℚ) : Fin d → ℚ :=
  B + specWlsB (rowScale (linkL expf X B) X) W y

/-- The iteration of §4.2 using the spec-side formulas, same convergence
check as the source. -/
def specIRLSLoop (expf : ℚ → ℚ) (X : Matrix (Fin n) (Fin d) ℚ) (y W : Fin n → ℚ)
    (tolerance : ℚ) : ℕ → (Fin d → ℚ) → (Fin d → ℚ)
  | 0, B => B
  | Nat.succ k, B =>
      let Bn := specUpdate expf X y W B
      if ltEF (tolEF Bn B) (.fin tolerance) then Bn
      else specIRLSLoop expf X y W tolerance k Bn

/-- The solver of §4.2 assembled from the spec-side formulas, with uniform
weights `W = ones(n)`. -/
def specIRLS (expf : ℚ → ℚ) (X : Matrix (Fin n) (Fin d) ℚ) (y : Fin n → ℚ)
    (niter : ℕ) (tolerance : ℚ) : Fin d → ℚ :=
  specIRLSLoop expf X y (fun _ => 1) tolerance niter (specWlsB X (fun _ => 1) y)

/-- `niter` applications of the IRLS update, with no early exit. -/
def irlsIter (expf : ℚ → ℚ) (X : Matrix (Fin n) (Fin d) ℚ) (y W : Fin n → ℚ)
    (k : ℕ) (B : Fin d → ℚ) : Fin d → ℚ :=
  (irlsUpdate expf X y W)^[k] B

/-- The convergence test the loop evaluates at state `B`:
`tol = np.sum(np.abs((B_new - B) / B))` is strictly below `tolerance` in the
IEEE comparison. -/
def irlsConv (expf : ℚ → ℚ) (X : Matrix (Fin n) (Fin d) ℚ) (y W : Fin n → ℚ)
    (tolerance : ℚ) (B : Fin d → ℚ) : Prop :=
  ltEF (tolEF (irlsUpdate expf X y W B) B) (.fin tolerance) = true

/-! ### Design matrix of compute_1d_poisson_glm (tuning_curves.py lines 593-598)

```python
    nt = np.abs(windowsize // binsize).astype("int") + 1
    X = hankel(
        np.hstack((np.zeros(nt - 1), dfeat.values))[: -nt + 1], dfeat.values[-nt:]
    )
    X = np.hstack((np.ones((len(dfeat), 1)), X))
```

numpy arrays whose shape is data-dependent are embedded as `PyMat`:
an explicit row count, column count, and entry function. -/

/-- A numpy 2-d array: shape plus entries (entries out of shape are
irrelevant; lookups use `List.getD` with default `0`). -/
structure PyMat where
  rows : ℕ
  cols : ℕ
  entry : ℕ → ℕ → ℚ

/-- `scipy.linalg.hankel(c, r)`: the `len(c) × len(r)` matrix with
`H[i, j] = c[i + j]` for `i + j < len(c)` and
`H[i, j] = r[i + j - len(c) + 1]` otherwise. -/
def pyHankel (c r : List ℚ) : PyMat :=
  ⟨c.length, r.length, fun i j =>
    if i + j < c.length then c.getD (i + j) 0 else r.getD (i + j + 1 - c.length) 0⟩

/-- Python slice `l[:s]` for an integer `s` (negative `s` counts from the
end). -/
def pySliceTo (l : List ℚ) (s : ℤ) : List ℚ :=
  if s < 0 then l.take ((l.length : ℤ) + s).toNat else l.take s.toNat

/-- Python slice `l[-k:]` for `k ≥ 1`: the last `k` elements (the whole
list when `k ≥ len(l)`). -/
def pySliceFromNeg (l : List ℚ) (k : ℕ) : List ℚ :=
  l.drop (l.length - k)

/-- `nt = np.abs(windowsize // binsize).astype("int") + 1`. -/
def ntLags (w b : ℚ) : ℕ := (⌊w / b⌋).natAbs + 1

/-- The design matrix built by `compute_1d_poisson_glm` from the
downsampled feature `f = dfeat.values` (lines 593-598): a Hankel matrix of
the zero-padded feature with an all-ones intercept column prepended. -/
def designX (f : List ℚ) (w b : ℚ) : PyMat :=
  let nt := ntLags w b
  let padded := List.replicate (nt - 1) 0 ++ f
  let H := pyHankel (pySliceTo padded (-(nt : ℤ) + 1)) (pySliceFromNeg f nt)
  ⟨H.rows, H.cols + 1, fun i j => if j = 0 then 1 else H.entry i (j - 1)⟩

/-! ### GLM fit orchestration and prediction (tuning_curves.py lines 600-618)

```python
    regressors = []
    for i, n in enumerate(group.keys()):
        b = PoissonIRLS(X, count[n].values, niter=niter, tolerance=tolerance)
        regressors.append(b)
    regressors = np.array(regressors).T
    offset = regressors[0]
    regressors = regressors[1:]
    ...
    prediction = nap.TsdFrame(
        t=dfeat.index.values,
        d=np.exp(np.dot(X[:, 1:], regressors.values) + offset.values) * binsize,
    )
```

The per-unit count vectors are a list `ys`; the design matrix has `d + 1`
columns, column `0` being the intercept. -/

/-- The per-unit fit loop: one `PoissonIRLS` call per count vector, all
sharing the design matrix `X`. -/
def glmRegressors (expf : ℚ → ℚ) (X : Matrix (Fin n) (Fin (d + 1)) ℚ)
    (ys : List (Fin n → ℚ)) (niter : ℕ) (tolerance : ℚ) : List (Fin (d + 1) → ℚ) :=
  ys.map fun y => PoissonIRLS expf X y niter tolerance

/-- One prediction entry: `np.exp(np.dot(X[:, 1:], regressors) + offset) *
binsize` at row `i` for a unit with full coefficient vector `b`
(`b 0` is the offset, `b j.succ` the lag regressors). -/
def predEntry (expf : ℚ → ℚ) (binsize : ℚ) (X : Matrix (Fin n) (Fin (d + 1)) ℚ)
    (b : Fin (d + 1) → ℚ) (i : Fin n) : ℚ :=
  expf ((∑ j : Fin d, X i j.succ * b j.succ) + b 0) * binsize

/-- The prediction array (line 615-618): one rate column per unit over the
same bin grid (rows) as the design matrix. -/
def glmPrediction (expf : ℚ → ℚ) (binsize : ℚ) (X : Matrix (Fin n) (Fin (d + 1)) ℚ)
    (bs : List (Fin (d + 1) → ℚ)) : List (Fin n → ℚ) :=
  bs.map fun b i => predEntry expf binsize X b i

/-! ### Input type guards (tuning_curves.py lines 58-59, 107-108, 571-574)

Each of `compute_discrete_tuning_curves`, `compute_1d_tuning_curves` and
`compute_1d_poisson_glm` begins by checking that `group` is a
`nap.TsGroup` and raises `RuntimeError("Unknown format for group")`
otherwise, before any other work. The group argument is modelled as either
a `TsGroup` carrying an opaque payload or a value of any other type; the
body of each function past the guard is an opaque function of the payload
(the guard precedes all of it in the source). -/

/-- A Python value passed as the `group` argument: a `nap.TsGroup` or
anything else. -/
inductive GroupArg (α : Type) where
  | tsGroup (g : α)
  | other

/-- `isinstance(group, nap.TsGroup)` (also `type(group) is nap.TsGroup`;
no `TsGroup` subclasses exist in the repository). -/
def isTsGroup {α : Type} : GroupArg α → Bool
  | .tsGroup _ => true
  | .other => false

/-- `compute_discrete_tuning_curves(group, dict_ep)` (lines 58-59): the
guard, then the rest of the function on the payload. -/
def compute_discrete_tuning_curves {α δ β : Type} (group : GroupArg α) (dict_ep : δ)
    (body : α → δ → β) : Except String β :=
  match group with
  | .tsGroup g => .ok (body g dict_ep)
  | .other => .error "Unknown format for group"

/-- `compute_1d_tuning_curves(group, feature, nb_bins, ...)` (lines
107-108): the guard, then the rest of the function on the payload. -/
def compute_1d_tuning_curves {α φ β : Type} (group : GroupArg α) (feature : φ)
    (nb_bins : ℕ) (body : α → φ → ℕ → β) : Except String β :=
  match group with
  | .tsGroup g => .ok (body g feature nb_bins)
  | .other => .error "Unknown format for group"

/-- `compute_1d_poisson_glm(group, feature, binsize, windowsize, ep, ...)`
(lines 571-574): the guard (`type(group) is nap.TsGroup`), then the rest of
the function on the payload. -/
def compute_1d_poisson_glm {α φ β : Type} (group : GroupArg α) (feature : φ)
    (binsize windowsize : ℚ) (body : α → φ → ℚ → ℚ → β) : Except String β :=
  match group with
  | .tsGroup g => .ok (body g feature binsize windowsize)
  | .other => .error "Unknown format for group"

/-! ### Per-bin tuning-curve values (tuning_curves.py lines 125-130, 197-206)

1-d (lines 126-130):
```python
        count, _ = np.histogram(group_value[k].values, bins)
        count = count / occupancy
        count[np.isnan(count)] = 0.0
        tuning_curves[k] = count
        tuning_curves[k] = count * feature.rate
```
2-d (lines 199-206): the same division, but the `nan` replacement line is
commented out:
```python
        count = count / occupancy
        # count[np.isnan(count)] = 0.0
        tc[n] = count * feature.rate
```
Histogram counts are naturals; the division is float division. -/

/-- `np.isnan` masking assignment `a[np.isnan(a)] = 0.0`, per entry. -/
def zeroNan (v : EF) : EF := if isNanEF v then .fin 0 else v

/-- One bin of a 1-d tuning curve: spike-histogram count `c`, occupancy
`o`, multiplied by the feature rate after the `nan` replacement. -/
def tuning1dBin (c o : ℕ) (rate : ℚ) : EF :=
  mulEF (zeroNan (divEF (.fin c) (.fin o))) (.fin rate)

/-- One bin of a 2-d tuning curve: same division, no `nan` replacement. -/
def tuning2dBin (c o : ℕ) (rate : ℚ) : EF :=
  mulEF (divEF (.fin c) (.fin o)) (.fin rate)

/-! ### Mutual-information logarithm clean-up (lines 263-267 and 341-345)

Both `compute_1d_mutual_info` and `compute_2d_mutual_info` run, per entry:
```python
    fxfr = fx / fr
    with warnings.catch_warnings():
        warnings.simplefilter("ignore")
        logfx = np.log2(fxfr)
    logfx[np.isinf(logfx)] = 0.0
```
`np.log2` on floats: `log2(nan) = nan`, `log2(+inf) = +inf`,
`log2(-inf) = nan`, `log2(x) = nan` for `x < 0`, `log2(0) = -inf`. The
finite positive branch is transcendental and is abstracted as a parameter
`l : ℚ → ℚ` (the properties proved are independent of it). -/

/-- `np.isinf` masking assignment `a[np.isinf(a)] = 0.0`, per entry.
`nan` entries are untouched (`np.isinf(nan)` is false). -/
def zeroInf (v : EF) : EF := if isInfEF v then .fin 0 else v

/-- `np.log2` on an extended float, with the finite positive branch
abstracted as `l`. -/
def log2F (l : ℚ → ℚ) : EF → EF
  | .nan => .nan
  | .pinf => .pinf
  | .ninf => .nan
  | .fin q => if q < 0 then .nan else if q = 0 then .ninf else .fin (l q)

/-- One entry of `logfx` after the `np.isinf` clean-up, from tuning-curve
value `fx` and mean rate `fr` (lines 263-267, 341-345). -/
def miLogTerm (l : ℚ → ℚ) (fx fr : ℚ) : EF :=
  zeroInf (log2F l (divEF (.fin fx) (.fin fr)))

/-! ### Concrete instances used by witnesses and counterexamples -/

/-- A stand-in for `np.exp` that is constantly `1`. -/
def expfOne : ℚ → ℚ := fun _ => 1

/-- The 1×1 design matrix `[[1]]`. -/
def Xone : Matrix (Fin 1) (Fin 1) ℚ := Matrix.of fun _ _ => 1

/-- The length-1 count vector `[1]`. -/
def yOne : Fin 1 → ℚ := fun _ => 1

/-- The length-1 count vector `[0]` (a silent unit). -/
def yZero : Fin 1 → ℚ := fun _ => 0

/-! ## Theorems -/

/-- `matInv` agrees with Mathlib's nonsingular inverse everywhere. -/
theorem matInv_eq_inv {d : ℕ} (A : Matrix (Fin d) (Fin d) ℚ) : matInv A = A⁻¹ := by
  rw [Matrix.inv_def, Ring.inverse_eq_inv]
  rfl

/-- numpy's broadcast `X.T * W` is transpose times the diagonal weight matrix. -/
theorem XtW_eq_transpose_diagonal (X : Matrix (Fin n) (Fin d) ℚ) (W : Fin n → ℚ) :
    XtW X W = X.transpose * Matrix.diagonal W := by
  funext j i
  rw [Matrix.mul_diagonal]
  rfl

theorem wlsB_eq_specWlsB (X : Matrix (Fin n) (Fin d) ℚ) (W : Fin n → ℚ) (y : Fin n → ℚ) :
    wlsB X W y = specWlsB X W y := by
  rw [wlsB, specWlsB, XtW_eq_transpose_diagonal]

theorem irlsUpdate_eq_specUpdate (expf : ℚ → ℚ) (X : Matrix (Fin n) (Fin d) ℚ)
    (y W : Fin n → ℚ) (B : Fin d → ℚ) :
    irlsUpdate expf X y W B = specUpdate expf X y W B := by
  rw [irlsUpdate, specUpdate, wlsB_eq_specWlsB]

theorem irlsLoop_eq_specIRLSLoop (expf : ℚ → ℚ) (X : Matrix (Fin n) (Fin d) ℚ)
    (y W : Fin n → ℚ) (tolerance : ℚ) (niter : ℕ) (B : Fin d → ℚ) :
    irlsLoop expf X y W tolerance niter B = specIRLSLoop expf X y W tolerance niter B := by
  induction niter generalizing B with
  | zero => rfl
  | succ k ih =>
      rw [irlsLoop, specIRLSLoop, irlsUpdate_eq_specUpdate]
      split
      · rfl
      · exact ih _

/-! ### Claim C1 -/

/-- C1: for every design matrix `X` and count vector `y`, `PoissonIRLS`
computes its initial coefficient vector as `B = (XᵗWX)⁻¹ XᵗWy` with uniform
weights `W = ones(n)`, and each subsequent iteration computes
`L = exp(X·B)`, `Z = L ⊙ X` (each row of `X` scaled by the corresponding
entry of `L`), `delta = (ZᵗWZ)⁻¹ ZᵗW y`, and updates `B` to `B + delta`:
the source embedding coincides with the solver assembled from exactly those
spec formulas (with `W` an explicit diagonal weight matrix). -/
theorem poissonIRLS_spec_formulas (expf : ℚ → ℚ) (X : Matrix (Fin n) (Fin d) ℚ)
    (y : Fin n → ℚ) (niter : ℕ) (tolerance : ℚ) :
    PoissonIRLS expf X y niter tolerance = specIRLS expf X y niter tolerance := by
  rw [PoissonIRLS, specIRLS, wlsB_eq_specWlsB, irlsLoop_eq_specIRLSLoop]

/-! ### Claim C2 -/

theorem irlsIter_succ_left (expf : ℚ → ℚ) (X : Matrix (Fin n) (Fin d) ℚ)
    (y W : Fin n → ℚ) (k : ℕ) (B : Fin d → ℚ) :
    irlsIter expf X y W (k + 1) B = irlsIter expf X y W k (irlsUpdate expf X y W B) := by
  simp [irlsIter, Function.iterate_succ_apply]

theorem irlsLoop_early (expf : ℚ → ℚ) (X : Matrix (Fin n) (Fin d) ℚ)
    (y W : Fin n → ℚ) (tolerance : ℚ) :
    ∀ niter m B, m < niter →
      (∀ k, k < m → ¬ irlsConv expf X y W tolerance (irlsIter expf X y W k B)) →
      irlsConv expf X y W tolerance (irlsIter expf X y W m B) →
      irlsLoop expf X y W tolerance niter B = irlsIter expf X y W (m + 1) B := by
  intro niter
  induction niter with
  | zero => intro m B hm; omega
  | succ nk ih =>
      intro m B hm hprev hconv
      by_cases h0 : irlsConv expf X y W tolerance B
      · have hm0 : m = 0 := by
          by_contra hne
          exact hprev 0 (by omega) (by simpa [irlsIter] using h0)
        subst hm0
        simp only [irlsLoop]
        rw [if_pos (show ltEF (tolEF (irlsUpdate expf X y W B) B) (EF.fin tolerance) = true from h0)]
        simp [irlsIter]
      · have hm0 : m ≠ 0 := by
          intro h
          subst h
          exact h0 (by simpa [irlsIter] using hconv)
        obtain ⟨m', rfl⟩ : ∃ m', m = m' + 1 := ⟨m - 1, by omega⟩
        simp only [irlsLoop]
        rw [if_neg (by simpa [irlsConv] using h0)]
        rw [ih m' (irlsUpdate expf X y W B) (by omega)
          (fun k hk => by
            rw [← irlsIter_succ_left]
            exact hprev (k + 1) (by omega))
          (by rw [← irlsIter_succ_left]; exact hconv)]
        rw [← irlsIter_succ_left]

theorem irlsLoop_no_conv (expf : ℚ → ℚ) (X : Matrix (Fin n) (Fin d) ℚ)
    (y W : Fin n → ℚ) (tolerance : ℚ) :
    ∀ niter B,
      (∀ k, k < niter → ¬ irlsConv expf X y W tolerance (irlsIter expf X y W k B)) →
      irlsLoop expf X y W tolerance niter B = irlsIter expf X y W niter B := by
  intro niter
  induction niter with
  | zero => intro B _; simp [irlsLoop, irlsIter]
  | succ nk ih =>
      intro B hprev
      have h0 : ¬ irlsConv expf X y W tolerance B := by
        have := hprev 0 (by omega)
        simpa [irlsIter] using this
      simp only [irlsLoop]
      rw [if_neg (by simpa [irlsConv] using h0)]
      rw [ih (irlsUpdate expf X y W B)
        (fun k hk => by
          rw [← irlsIter_succ_left]
          exact hprev (k + 1) (by omega))]
      rw [← irlsIter_succ_left]

/-- C2: `PoissonIRLS` returns `B_new` as soon as
`tol = np.sum(np.abs((B_new - B) / B))` is strictly below `tolerance`
(at the first iteration `m` where the test passes, the result is the
`(m+1)`-st update of the initial weighted least-squares estimate); and if
all `niter` iterations complete with the test never passing, it returns the
last computed `B` — the `niter`-fold update — as a normal value (the
embedding is a total function: no error is raised). -/
theorem poissonIRLS_early_return (expf : ℚ → ℚ) (X : Matrix (Fin n) (Fin d) ℚ)
    (y : Fin n → ℚ) (niter : ℕ) (tolerance : ℚ) :
    (∀ m, m < niter →
      (∀ k, k < m → ¬ irlsConv expf X y (fun _ => 1) tolerance
        (irlsIter expf X y (fun _ => 1) k (wlsB X (fun _ => 1) y))) →
      irlsConv expf X y (fun _ => 1) tolerance
        (irlsIter expf X y (fun _ => 1) m (wlsB X (fun _ => 1) y)) →
      PoissonIRLS expf X y niter tolerance
        = irlsIter expf X y (fun _ => 1) (m + 1) (wlsB X (fun _ => 1) y))
    ∧ ((∀ k, k < niter → ¬ irlsConv expf X y (fun _ => 1) tolerance
        (irlsIter expf X y (fun _ => 1) k (wlsB X (fun _ => 1) y))) →
      PoissonIRLS expf X y niter tolerance
        = irlsIter expf X y (fun _ => 1) niter (wlsB X (fun _ => 1) y)) := by
  constructor
  · intro m hm hprev hconv
    rw [PoissonIRLS]
    exact irlsLoop_early expf X y (fun _ => 1) tolerance niter m _ hm hprev hconv
  · intro hnc
    rw [PoissonIRLS]
    exact irlsLoop_no_conv expf X y (fun _ => 1) tolerance niter _ hnc

/-! ### Claim C3 -/

theorem ntLags_two_le (w b : ℚ) (hb : 0 < b) (hw : b ≤ w) : 2 ≤ ntLags w b := by
  have h1 : (1 : ℤ) ≤ ⌊w / b⌋ := by
    rw [Int.le_floor]
    push_cast
    rw [le_div_iff₀ hb]
    linarith
  rw [ntLags]
  omega

/-- C3 (amended): for a feature vector `f` of length `n` and durations
`window_size ≥ bin_size > 0`, provided `n` is at least
`nt = floor(window_size/bin_size) + 1`, the design matrix built by
`compute_1d_poisson_glm` has `n` rows and `nt + 1` columns, its first
column is all ones, and entry `(i, j)` for `1 ≤ j ≤ nt` equals
`f_padded[i + j - 1]` where `f_padded` is `f` left-padded with `nt - 1`
zeros. (The unamended claim, quantified over all `n`, fails for `n < nt`:
see the counterexample.) -/
theorem designX_shape_and_entries (f : List ℚ) (w b : ℚ) (hb : 0 < b) (hw : b ≤ w)
    (hn : ntLags w b ≤ f.length) :
    (designX f w b).rows = f.length ∧
    (designX f w b).cols = ntLags w b + 1 ∧
    (∀ i : ℕ, (designX f w b).entry i 0 = 1) ∧
    (∀ i j : ℕ, i < f.length → 1 ≤ j → j ≤ ntLags w b →
      (designX f w b).entry i j
        = (List.replicate (ntLags w b - 1) 0 ++ f).getD (i + j - 1) 0) := by
  have hnt2 : 2 ≤ ntLags w b := ntLags_two_le w b hb hw
  have hpadlen : (List.replicate (ntLags w b - 1) (0:ℚ) ++ f).length
      = (ntLags w b - 1) + f.length := by
    simp
  have hc : pySliceTo (List.replicate (ntLags w b - 1) (0:ℚ) ++ f) (-(ntLags w b : ℤ) + 1)
      = (List.replicate (ntLags w b - 1) (0:ℚ) ++ f).take f.length := by
    rw [pySliceTo, if_pos (by omega : -(ntLags w b : ℤ) + 1 < 0)]
    rw [hpadlen]
    congr 1
    omega
  have hclen : ((List.replicate (ntLags w b - 1) (0:ℚ) ++ f).take f.length).length
      = f.length := by
    rw [List.length_take, hpadlen]
    omega
  have hrlen : (pySliceFromNeg f (ntLags w b)).length = ntLags w b := by
    rw [pySliceFromNeg, List.length_drop]
    omega
  refine ⟨?_, ?_, ?_, ?_⟩
  · simp only [designX, pyHankel, hc, hclen]
  · simp only [designX, pyHankel, hrlen]
  · intro i
    simp only [designX, pyHankel]
    rfl
  · intro i j hi hj1 hjnt
    simp only [designX, pyHankel, hc, hclen, hrlen]
    rw [if_neg (by omega : ¬ j = 0)]
    by_cases hcase : i + (j - 1) < f.length
    · rw [if_pos hcase]
      have hidx : i + (j - 1) = i + j - 1 := by omega
      rw [hidx]
      rw [List.getD_eq_getElem?_getD, List.getD_eq_getElem?_getD]
      rw [List.getElem?_take_of_lt (by omega : i + j - 1 < f.length)]
    · rw [if_neg hcase]
      rw [pySliceFromNeg]
      rw [List.getD_eq_getElem?_getD, List.getD_eq_getElem?_getD]
      rw [List.getElem?_drop]
      rw [List.getElem?_append_right (by simp; omega)]
      congr 1
      simp only [List.length_replicate, List.length_take, List.length_append]
      congr 1
      omega

/-- C3 counterexample: for the length-1 feature `f = [5]` with
`window_size = bin_size = 1` (so `nt = 2 > 1 = n`), the design matrix has
`2` columns, not the claimed `nt + 1 = 3`: the unamended claim is false for
feature vectors shorter than `nt`. -/
theorem designX_short_feature_counterexample :
    ntLags 1 1 = 2 ∧ (designX [5] 1 1).cols = 2 ∧ (designX [5] 1 1).cols ≠ ntLags 1 1 + 1 := by
  have hnt : ntLags 1 1 = 2 := by
    rw [ntLags]
    norm_num
  refine ⟨hnt, ?_, ?_⟩
  · simp only [designX, pyHankel, hnt, pySliceFromNeg]
    norm_num
  · simp only [designX, pyHankel, hnt, pySliceFromNeg]
    norm_num

/-! ### Concrete evaluations on 1×1 instances -/

theorem wlsB_one_one (X : Matrix (Fin 1) (Fin 1) ℚ) (W y : Fin 1 → ℚ) :
    wlsB X W y = fun _ => (X 0 0 * W 0 * X 0 0)⁻¹ * (X 0 0 * W 0 * y 0) := by
  funext j
  fin_cases j
  simp [wlsB, XtW, matInv, Matrix.mulVec, Matrix.dotProduct, Matrix.mul_apply,
    Matrix.det_fin_one, Matrix.adjugate_fin_one, Fin.sum_univ_one, Matrix.smul_apply,
    Matrix.one_apply]

theorem wlsB_Xone_yOne : wlsB Xone (fun _ => 1) yOne = fun _ => 1 := by
  rw [wlsB_one_one]
  funext j
  norm_num [Xone, yOne]

theorem wlsB_Xone_yZero : wlsB Xone (fun _ => 1) yZero = fun _ => 0 := by
  rw [wlsB_one_one]
  funext j
  norm_num [Xone, yZero]

theorem irlsUpdate_Xone_yOne :
    irlsUpdate expfOne Xone yOne (fun _ => 1) (fun _ => 1) = fun _ => 2 := by
  rw [irlsUpdate, wlsB_one_one]
  funext j
  norm_num [Xone, yOne, expfOne, rowScale, linkL, Pi.add_apply, Matrix.of_apply]

theorem irlsUpdate_Xone_yZero :
    irlsUpdate expfOne Xone yZero (fun _ => 1) (fun _ => 0) = fun _ => 0 := by
  rw [irlsUpdate, wlsB_one_one]
  funext j
  norm_num [Xone, yZero, expfOne, rowScale, linkL, Pi.add_apply, Matrix.of_apply]

theorem tolEF_two_one : @tolEF 1 (fun _ => 2) (fun _ => 1) = .fin 1 := by
  norm_num [tolEF, sumEF, List.ofFn_succ, List.ofFn_zero, absEF, divEF, addEF,
    List.foldl]

theorem tolEF_zero_zero : @tolEF 1 (fun _ => 0) (fun _ => 0) = .nan := by
  norm_num [tolEF, sumEF, List.ofFn_succ, List.ofFn_zero, absEF, divEF, addEF,
    List.foldl]

/-- Witness for C2 at the 1×1 instance `X = [[1]]`, `y = [1]`,
`expf ≡ 1`: the initial estimate is `[1]` and the first update is `[2]`
with convergence scalar `1`. With `tolerance = 2` the test passes at the
first iteration and the solver returns the one-step update; with
`tolerance = 1/2` the test never passes within `niter = 1` and the solver
returns the same one-step update as the last computed `B`. -/
theorem poissonIRLS_early_return_witness :
    PoissonIRLS expfOne Xone yOne 1 2 = (fun _ => (2:ℚ))
    ∧ PoissonIRLS expfOne Xone yOne 1 (1/2) = (fun _ => (2:ℚ)) := by
  have hiter1 : irlsIter expfOne Xone yOne (fun _ => 1) 1 (wlsB Xone (fun _ => 1) yOne)
      = fun _ => 2 := by
    rw [irlsIter, Function.iterate_one, wlsB_Xone_yOne, irlsUpdate_Xone_yOne]
  have hconv : irlsConv expfOne Xone yOne (fun _ => 1) 2
      (irlsIter expfOne Xone yOne (fun _ => 1) 0 (wlsB Xone (fun _ => 1) yOne)) := by
    simp only [irlsConv, irlsIter, Function.iterate_zero_apply, wlsB_Xone_yOne,
      irlsUpdate_Xone_yOne, tolEF_two_one]
    norm_num [ltEF]
  have hnconv : ∀ k, k < 1 → ¬ irlsConv expfOne Xone yOne (fun _ => 1) (1/2)
      (irlsIter expfOne Xone yOne (fun _ => 1) k (wlsB Xone (fun _ => 1) yOne)) := by
    intro k hk
    have hk0 : k = 0 := by omega
    subst hk0
    simp only [irlsConv, irlsIter, Function.iterate_zero_apply, wlsB_Xone_yOne,
      irlsUpdate_Xone_yOne, tolEF_two_one]
    norm_num [ltEF]
  constructor
  · have h := (poissonIRLS_early_return expfOne Xone yOne 1 2).1 0 (by omega)
      (fun k hk => absurd hk (by omega)) hconv
    rw [h]
    simpa using hiter1
  · have h := (poissonIRLS_early_return expfOne Xone yOne 1 (1/2)).2 hnconv
    rw [h, hiter1]

/-! ### Claim C4 -/

theorem mulVec_intercept (X : Matrix (Fin n) (Fin (d + 1)) ℚ) (b : Fin (d + 1) → ℚ)
    (i : Fin n) (h1 : X i 0 = 1) :
    X.mulVec b i = (∑ j : Fin d, X i j.succ * b j.succ) + b 0 := by
  simp [Matrix.mulVec, Matrix.dotProduct, Fin.sum_univ_succ, h1]
  ring

/-- C4 (amended): the rate prediction returned by `compute_1d_poisson_glm`
equals `exp(X·B)` MULTIPLIED by `binsize`, per unit, over the same bin grid
(rows of `X`) as the design matrix, where `B` is the unit's full fitted
coefficient vector (offset plus lag regressors) and the design matrix has
an all-ones intercept column. (The claim as stated says divided by
`binsize`; the source multiplies — see the counterexample.) -/
theorem glmPrediction_formula (expf : ℚ → ℚ) (binsize : ℚ)
    (X : Matrix (Fin n) (Fin (d + 1)) ℚ) (ys : List (Fin n → ℚ)) (niter : ℕ)
    (tolerance : ℚ) (h1 : ∀ i, X i 0 = 1) :
    glmPrediction expf binsize X (glmRegressors expf X ys niter tolerance)
      = ys.map fun y => fun i =>
          expf (X.mulVec (PoissonIRLS expf X y niter tolerance) i) * binsize := by
  rw [glmPrediction, glmRegressors, List.map_map]
  apply List.map_congr_left
  intro y hy
  funext i
  simp only [Function.comp_apply, predEntry]
  rw [mulVec_intercept X (PoissonIRLS expf X y niter tolerance) i (h1 i)]

/-- C4 counterexample: at `X = [[1]]` (intercept only), `y = [0]`,
`binsize = 2`, `expf ≡ 1`, `niter = 0`, the prediction entry returned is
`exp(X·B) * binsize = 2`, while `exp(X·B) / binsize = 1/2`: the prediction
is not `exp(X·B)` divided by `binsize`. -/
theorem glmPrediction_not_divided_counterexample :
    (glmPrediction expfOne 2 Xone (glmRegressors expfOne Xone [yZero] 0 (1/100000))).headI 0 = 2
    ∧ expfOne (Xone.mulVec (PoissonIRLS expfOne Xone yZero 0 (1/100000)) 0) / 2 = 1/2
    ∧ (2:ℚ) ≠ 1/2 := by
  refine ⟨?_, ?_, by norm_num⟩
  · rw [glmPrediction, glmRegressors]
    simp only [List.map_cons, List.map_nil, List.headI]
    simp only [predEntry, expfOne]
    norm_num
  · norm_num [expfOne]

/-- Witness for C4's theorem: the concrete single-unit instance
`X = [[1]]`, `ys = [[0]]`, `binsize = 2`, with the intercept hypothesis
discharged definitionally. -/
theorem glmPrediction_formula_witness :
    glmPrediction expfOne 2 Xone (glmRegressors expfOne Xone [yZero] 0 (1/100000))
      = [fun i => expfOne (Xone.mulVec (PoissonIRLS expfOne Xone yZero 0 (1/100000)) i) * 2] := by
  have h := glmPrediction_formula expfOne 2 Xone [yZero] 0 (1/100000) (fun i => rfl)
  simpa using h

/-! ### Claim C5 -/

/-- C5 counterexample: at `X = [[1]]`, `y = [1]`, `expf ≡ 1`, calling the
solver with `niter = 0` returns the initial weighted-least-squares
estimate `[1]` — the `for` loop body never runs — and not the single-step
updated estimate `[2]`. -/
theorem poissonIRLS_niter0_counterexample :
    PoissonIRLS expfOne Xone yOne 0 (1/100000) = wlsB Xone (fun _ => 1) yOne
    ∧ wlsB Xone (fun _ => 1) yOne
        ≠ irlsUpdate expfOne Xone yOne (fun _ => 1) (wlsB Xone (fun _ => 1) yOne) := by
  refine ⟨rfl, ?_⟩
  rw [wlsB_Xone_yOne, irlsUpdate_Xone_yOne]
  intro h
  have h0 := congrFun h 0
  norm_num at h0

/-- C5 (amended): `PoissonIRLS` with `niter = 1` returns the single-step
updated estimate `B0 + delta`; with `niter = 0` it returns the initial
weighted-least-squares estimate `B0` (the loop body never runs). -/
theorem poissonIRLS_niter_small (expf : ℚ → ℚ) (X : Matrix (Fin n) (Fin d) ℚ)
    (y : Fin n → ℚ) (tolerance : ℚ) :
    PoissonIRLS expf X y 0 tolerance = wlsB X (fun _ => 1) y
    ∧ PoissonIRLS expf X y 1 tolerance
        = irlsUpdate expf X y (fun _ => 1) (wlsB X (fun _ => 1) y) := by
  refine ⟨rfl, ?_⟩
  rw [PoissonIRLS]
  simp only [irlsLoop]
  split
  · rfl
  · rfl

/-! ### Claim C6 -/

/-- C6: in `PoissonIRLS`, whenever the convergence scalar
`tol = np.sum(np.abs((B_new - B) / B))` evaluates to `nan` (e.g. from a
`0/0` on a zero entry of the previous coefficient vector), the IEEE
comparison `tol < tolerance` is false and the loop continues into the next
iteration: a `nan` is treated neither as convergence nor as an error (the
loop is a total function). -/
theorem irls_nan_tol_continues (expf : ℚ → ℚ) (X : Matrix (Fin n) (Fin d) ℚ)
    (y W : Fin n → ℚ) (tolerance : ℚ) (k : ℕ) (B : Fin d → ℚ)
    (h : tolEF (irlsUpdate expf X y W B) B = EF.nan) :
    ltEF (tolEF (irlsUpdate expf X y W B) B) (EF.fin tolerance) = false
    ∧ irlsLoop expf X y W tolerance (k + 1) B
        = irlsLoop expf X y W tolerance k (irlsUpdate expf X y W B) := by
  have hlt : ltEF (tolEF (irlsUpdate expf X y W B) B) (EF.fin tolerance) = false := by
    rw [h]
    rfl
  refine ⟨hlt, ?_⟩
  simp only [irlsLoop]
  rw [if_neg (by simp [hlt])]

/-- Witness for C6: the silent-unit instance `X = [[1]]`, `y = [0]`,
`expf ≡ 1`. The initial estimate is `[0]`, the update leaves it at `[0]`,
and the convergence scalar is `(0 - 0)/0 = nan`: the comparison with the
default tolerance is false and the loop continues. -/
theorem irls_nan_tol_continues_witness :
    ltEF (tolEF (irlsUpdate expfOne Xone yZero (fun _ => 1) (fun _ => 0)) (fun _ => 0))
        (EF.fin (1/100000)) = false
    ∧ irlsLoop expfOne Xone yZero (fun _ => 1) (1/100000) 1 (fun _ => 0)
        = irlsLoop expfOne Xone yZero (fun _ => 1) (1/100000) 0
            (irlsUpdate expfOne Xone yZero (fun _ => 1) (fun _ => 0)) := by
  have h : tolEF (irlsUpdate expfOne Xone yZero (fun _ => 1) (fun _ => 0)) (fun _ => 0)
      = EF.nan := by
    rw [irlsUpdate_Xone_yZero, tolEF_zero_zero]
  exact irls_nan_tol_continues expfOne Xone yZero (fun _ => 1) (1/100000) 0 (fun _ => 0) h

/-! ### Claim C7 -/

/-- C7 (amended): in the mutual-information computations
(`compute_1d_mutual_info` and `compute_2d_mutual_info`, which run the same
per-entry code), every INFINITE value of `log2(fx/fr)` is replaced with
zero before the information sum is taken, but a `nan` value (from `0/0` or
a negative ratio) passes through the `np.isinf` mask unreplaced. (The
claim as stated says every non-finite value is replaced; `nan` is not —
see the counterexample.) -/
theorem miLogTerm_replaces_inf (l : ℚ → ℚ) (fx fr : ℚ) :
    (isInfEF (log2F l (divEF (.fin fx) (.fin fr))) = true → miLogTerm l fx fr = .fin 0)
    ∧ (log2F l (divEF (.fin fx) (.fin fr)) = .nan → miLogTerm l fx fr = .nan) := by
  constructor
  · intro h
    rw [miLogTerm, zeroInf, if_pos h]
  · intro h
    rw [miLogTerm, h]
    rfl

/-- C7 counterexample: at `fx = fr = 0` (an all-zero tuning curve), the
ratio is `0/0 = nan`, its logarithm is `nan` — a non-finite value — and the
`np.isinf` clean-up leaves it as `nan`, not zero. -/
theorem miLogTerm_nan_counterexample :
    log2F id (divEF (.fin 0) (.fin 0)) = .nan
    ∧ miLogTerm id 0 0 = .nan
    ∧ EF.nan ≠ EF.fin 0 := by
  refine ⟨?_, ?_, by simp⟩
  · norm_num [divEF, log2F]
  · norm_num [miLogTerm, divEF, log2F, zeroInf, isInfEF]

/-- Witness for C7's theorem: at `fx = 0, fr = 1` the logarithm is `-inf`
and is replaced with zero; at `fx = fr = 0` it is `nan` and passes
through. -/
theorem miLogTerm_replaces_inf_witness :
    miLogTerm id 0 1 = EF.fin 0 ∧ miLogTerm id 0 0 = EF.nan := by
  constructor
  · exact (miLogTerm_replaces_inf id 0 1).1 (by norm_num [divEF, log2F, isInfEF])
  · exact (miLogTerm_replaces_inf id 0 0).2 (by norm_num [divEF, log2F])

/-! ### Claim C8 -/

/-- C8: for every `group` argument that is not a `nap.TsGroup`,
`compute_discrete_tuning_curves`, `compute_1d_tuning_curves` and
`compute_1d_poisson_glm` each raise `RuntimeError("Unknown format for
group")` immediately: the result is the error, independent of every other
argument and of the entire rest of the function body (no partial
computation is performed). -/
theorem group_typecheck_first {α δ φ β₁ β₂ β₃ : Type} (g : GroupArg α)
    (h : isTsGroup g = false) (dict_ep : δ) (feature : φ) (nb_bins : ℕ)
    (binsize windowsize : ℚ) (body₁ : α → δ → β₁) (body₂ : α → φ → ℕ → β₂)
    (body₃ : α → φ → ℚ → ℚ → β₃) :
    compute_discrete_tuning_curves g dict_ep body₁ = .error "Unknown format for group"
    ∧ compute_1d_tuning_curves g feature nb_bins body₂ = .error "Unknown format for group"
    ∧ compute_1d_poisson_glm g feature binsize windowsize body₃
        = .error "Unknown format for group" := by
  cases g with
  | tsGroup g => simp [isTsGroup] at h
  | other => exact ⟨rfl, rfl, rfl⟩

/-- Witness for C8: a concrete non-`TsGroup` argument makes all three
functions return the error. -/
theorem group_typecheck_first_witness :
    compute_discrete_tuning_curves (GroupArg.other : GroupArg Unit) (0 : ℕ)
        (fun _ _ => (0 : ℕ)) = .error "Unknown format for group"
    ∧ compute_1d_tuning_curves (GroupArg.other : GroupArg Unit) (0 : ℕ) 10
        (fun _ _ _ => (0 : ℕ)) = .error "Unknown format for group"
    ∧ compute_1d_poisson_glm (GroupArg.other : GroupArg Unit) (0 : ℕ) 1 2
        (fun _ _ _ _ => (0 : ℕ)) = .error "Unknown format for group" :=
  group_typecheck_first GroupArg.other rfl 0 0 10 1 2
    (fun _ _ => 0) (fun _ _ _ => 0) (fun _ _ _ _ => 0)

/-! ### Claim C9 -/

/-- C9: `PoissonIRLS` is deterministic: the embedding is a pure function
with no state outside its arguments, so two calls with identical inputs
`(X, y, niter, tolerance)` (and the same exponential) return identical
coefficient vectors. -/
theorem poissonIRLS_deterministic (expf : ℚ → ℚ) (X₁ X₂ : Matrix (Fin n) (Fin d) ℚ)
    (y₁ y₂ : Fin n → ℚ) (niter₁ niter₂ : ℕ) (tolerance₁ tolerance₂ : ℚ)
    (hX : X₁ = X₂) (hy : y₁ = y₂) (hniter : niter₁ = niter₂)
    (htol : tolerance₁ = tolerance₂) :
    PoissonIRLS expf X₁ y₁ niter₁ tolerance₁ = PoissonIRLS expf X₂ y₂ niter₂ tolerance₂ := by
  rw [hX, hy, hniter, htol]

/-- Witness for C9: two identical concrete calls agree. -/
theorem poissonIRLS_deterministic_witness :
    PoissonIRLS expfOne Xone yOne 3 (1/100000) = PoissonIRLS expfOne Xone yOne 3 (1/100000) :=
  poissonIRLS_deterministic expfOne Xone Xone yOne yOne 3 3 (1/100000) (1/100000)
    rfl rfl rfl rfl

/-! ### Claim C10 -/

/-- C10: for a feature bin with zero occupancy (and hence zero spike
count, the `0/0` case the claim describes), `compute_1d_tuning_curves`
produces the value `0` for that bin — the `nan` from `0/0` is replaced by
`0` before the multiplication by the feature rate — whereas
`compute_2d_tuning_curves` (whose `nan`-replacement line is commented out)
leaves `nan` in that bin of its returned per-unit array. -/
theorem tuning_bin_zero_occupancy (rate : ℚ) :
    tuning1dBin 0 0 rate = EF.fin 0 ∧ tuning2dBin 0 0 rate = EF.nan := by
  constructor
  · norm_num [tuning1dBin, divEF, zeroNan, isNanEF, mulEF]
  · norm_num [tuning2dBin, divEF, mulEF]

/-- Witness for C3's amended theorem: the length-2 feature `f = [3, 4]`
with `window_size = bin_size = 1` (so `nt = 2 ≤ 2 = n`): the design matrix
is 2×3, the first column is ones, and the last checked entry reads the
padded feature. -/
theorem designX_shape_and_entries_witness :
    (designX [3, 4] 1 1).rows = 2
    ∧ (designX [3, 4] 1 1).cols = ntLags 1 1 + 1
    ∧ (designX [3, 4] 1 1).entry 0 0 = 1
    ∧ (designX [3, 4] 1 1).entry 1 2
        = (List.replicate (ntLags 1 1 - 1) 0 ++ ([3, 4] : List ℚ)).getD (1 + 2 - 1) 0 := by
  have h := designX_shape_and_entries [3, 4] 1 1 (by norm_num) (by norm_num)
    (by norm_num [ntLags])
  exact ⟨h.1, h.2.1, h.2.2.1 0,
    h.2.2.2 1 2 (by norm_num) (by norm_num) (by norm_num [ntLags])⟩
